import Mathlib

/-!
Shallow embedding of the CodeCopier command-line utility (src/index.ts) and a
verification of its specification.  The interactive selection loop, the output
assembler, the configuration loader and the output writer are translated into
pure Lean functions; external collaborators (the glob engine, micromatch, gzip,
the terminal) are parameters, modelled at their interface boundary.
-/

namespace CodeCopier

/-! ## String helpers

The TypeScript source uses `String.prototype.toLowerCase`, `path.extname` and
`String.prototype.slice(1)`.  They are embedded here as functions on the
character list underlying a Lean `String` (all inputs of interest are ASCII
relative paths and single-letter answers, where per-character lowering and
last-dot extraction are exactly the JavaScript semantics). -/

/-- Embedding of `answer.toLowerCase()`: lower every character. -/
def toLowerStr (s : String) : String := ⟨s.data.map Char.toLower⟩

/-- Characters of the final path segment: everything after the last slash
(`path.extname` only looks at the basename). -/
def afterLastSlash (l : List Char) : List Char :=
  l.foldl (fun acc c => if c = '/' then [] else acc ++ [c]) []

/-- Embedding of Node's `path.extname`: the portion of the basename from its
last dot to the end; the empty string when the basename has no dot or its only
dot is the leading character (dotfiles such as `.bashrc` have no extension). -/
def extname (file : String) : String :=
  let base := afterLastSlash file.data
  if base.contains '.' then
    let tail := base.reverse.takeWhile (fun c => c ≠ '.')
    if base.length - tail.length - 1 == 0 then ""
    else ⟨'.' :: tail.reverse⟩
  else ""

/-- Embedding of `String.prototype.slice(1)`: drop the first character. -/
def strSlice1 (s : String) : String := ⟨s.data.drop 1⟩

/-! ## External pattern matching (micromatch / glob)

`micromatch(list, pattern)` returns the elements of `list` matching `pattern`,
in their original order.  The per-path predicate is kept abstract (`isMatch`);
the list-level behaviour — an order-preserving filter — is the documented
interface of the library. -/

/-- Modelled from the spec: the external `micromatch` call on a list and a
single pattern returns the sub-list of elements matching the pattern, in their
relative order; the per-element glob predicate `isMatch` is abstract. -/
def micromatch (isMatch : String → String → Bool) (files : List String)
    (pat : String) : List String :=
  files.filter (fun f => isMatch f pat)

/-- Modelled from the spec: on a pattern containing no glob magic characters,
the glob/micromatch engines match by literal string equality (a bare `|` is not
a glob operator).  Used to instantiate the abstract `isMatch` at concrete
inputs consisting of literal patterns. -/
def litMatch (f pat : String) : Bool := f == pat

/-! ## Interactive selection loop (`selectFiles`)

The recursive `askForFile` closure is embedded as a function of the candidate
list, the cursor `index`, the accumulated `selectedFiles`, and the stream of
input lines still to be read from the terminal.  Each `rl.question` consumes
one line; the `p` branch consumes a second line (the glob pattern).  `none`
models the process blocking forever on `rl.question` with no input left. -/

/-- Embedding of the `askForFile` loop body of `selectFiles` (src/index.ts):
stop when the cursor reaches the end; otherwise read one answer, lower-case it,
and dispatch: `y` appends the current file and advances, `n` advances, `p`
reads a pattern line, appends `micromatch(files.slice(index), pattern)` and
advances by the number of matches, `q` returns immediately, and anything else
re-prompts the same candidate. -/
def selectLoop (isMatch : String → String → Bool) (files : List String)
    (index : Nat) (selected : List String) (lines : List String) :
    Option (List String) :=
  if files.length ≤ index then
    some selected
  else
    match lines with
    | [] => none
    | ans :: rest =>
      if toLowerStr ans = "y" then
        selectLoop isMatch files (index + 1) (selected ++ [files.getD index ""]) rest
      else if toLowerStr ans = "n" then
        selectLoop isMatch files (index + 1) selected rest
      else if toLowerStr ans = "p" then
        match rest with
        | [] => none
        | pat :: rest2 =>
          selectLoop isMatch files
            (index + (micromatch isMatch (files.drop index) pat).length)
            (selected ++ micromatch isMatch (files.drop index) pat) rest2
      else if toLowerStr ans = "q" then
        some selected
      else
        selectLoop isMatch files index selected rest

/-- Embedding of `selectFiles`: run the loop from cursor 0 with an empty
selection. -/
def selectFiles (isMatch : String → String → Bool) (files : List String)
    (lines : List String) : Option (List String) :=
  selectLoop isMatch files 0 [] lines

/-! ## Output assembler (`collectCode`, `getFileExtension`) -/

/-- Embedding of the `languageMap` object literal of `getFileExtension`:
the object's own keys. -/
def languageMap : List (String × String) :=
  [("js", "javascript"), ("ts", "typescript"), ("py", "python"),
   ("java", "java"), ("c", "c"), ("cpp", "cpp"), ("h", "cpp"),
   ("hpp", "cpp"), ("css", "css"), ("html", "html")]

/-- Own property names of `Object.prototype`, which a JavaScript property
access `languageMap[ext]` reaches through the prototype chain when `ext` is
not an own key of the object literal.  Each inherited value is truthy (a
function, or `Object.prototype` itself for `__proto__`), so `|| ''` keeps it;
it is represented here by the string it coerces to at the sole call site,
`'\x60\x60\x60' + getFileExtension(file)`. -/
def objectProtoProps : List (String × String) :=
  [("constructor", "function Object() \x7b [native code] \x7d"),
   ("__defineGetter__", "function __defineGetter__() \x7b [native code] \x7d"),
   ("__defineSetter__", "function __defineSetter__() \x7b [native code] \x7d"),
   ("hasOwnProperty", "function hasOwnProperty() \x7b [native code] \x7d"),
   ("__lookupGetter__", "function __lookupGetter__() \x7b [native code] \x7d"),
   ("__lookupSetter__", "function __lookupSetter__() \x7b [native code] \x7d"),
   ("isPrototypeOf", "function isPrototypeOf() \x7b [native code] \x7d"),
   ("propertyIsEnumerable",
    "function propertyIsEnumerable() \x7b [native code] \x7d"),
   ("toString", "function toString() \x7b [native code] \x7d"),
   ("valueOf", "function valueOf() \x7b [native code] \x7d"),
   ("__proto__", "[object Object]"),
   ("toLocaleString", "function toLocaleString() \x7b [native code] \x7d")]

/-- Embedding of `getFileExtension`: `path.extname(file).slice(1)` looked up
by the JavaScript property access `languageMap[ext] || ''`.  An own key of the
object literal yields its mapped tag; otherwise the access walks the prototype
chain, so an extension naming an `Object.prototype` property yields that
inherited truthy value (kept by `|| ''` and coerced to a string where the
result is concatenated into the fence line); only an extension matching
neither yields `undefined`, which `|| ''` turns into the empty tag. -/
def getFileExtension (file : String) : String :=
  let ext := strSlice1 (extname file)
  match languageMap.find? (fun kv => kv.1 == ext) with
  | some kv => kv.2
  | none =>
    match objectProtoProps.find? (fun kv => kv.1 == ext) with
    | some kv => kv.2
    | none => ""

/-- Text of one per-file section appended by the `forEach` body of
`collectCode`: header, fence opening with language tag, raw file text, fence
close and blank line.  `readFile` stands for `fs.readFileSync(fullPath, 'utf8')`. -/
def fileSection (readFile : String → String) (file : String) : String :=
  "## File: " ++ file ++ "\n\n" ++ "```" ++ getFileExtension file ++ "\n"
    ++ readFile file ++ "\n```\n\n"

/-- Embedding of `collectCode`: start from the title line and fold the
selected files in order, appending one section each. -/
def collectCode (readFile : String → String) (filesToInclude : List String) :
    String :=
  filesToInclude.foldl (fun output file => output ++ fileSection readFile file)
    "# CodeCopier Output\n\n"

/-- Concatenation of the per-file sections in selection order, as the spec
words the assembled document; stated for comparison with `collectCode`. -/
def sectionsConcat (readFile : String → String) : List String → String
  | [] => ""
  | f :: fs => fileSection readFile f ++ sectionsConcat readFile fs

/-- Language tag as the spec words it: derived from the file's extension via
the static mapping alone, unmapped extensions giving the empty tag.  Stated
from the spec for comparison with `getFileExtension`. -/
def staticTag (file : String) : String :=
  (((languageMap.find?
    (fun kv => kv.1 == strSlice1 (extname file))).map Prod.snd).getD "")

/-! ## Output writer (`compressOutput`, `writeOutput`)

The byte-level codecs are external (`zlib.gzip`, UTF-8 encoding of
`fs.writeFileSync`); they are parameters with codomain `α`.  A write is
modelled by the path written and the payload handed to the filesystem. -/

/-- Path and payload of the single `fs.writeFileSync` call performed by
`writeOutput`. -/
structure WriteResult (α : Type) where
  path : String
  data : α

/-- Embedding of `compressOutput`: hand the document to the external gzip
codec. -/
def compressOutput {α : Type} (gzip : String → α) (content : String) : α :=
  gzip content

/-- Embedding of `writeOutput`: with `compress` set, write the gzip of the
document to `outputPath ++ ".gz"`; otherwise write the document itself (as
UTF-8, via the external encoder) to `outputPath`. -/
def writeOutput {α : Type} (utf8Encode : String → α) (gzip : String → α)
    (content outputPath : String) (compress : Bool) : WriteResult α :=
  if compress then
    ⟨outputPath ++ ".gz", compressOutput gzip content⟩
  else
    ⟨outputPath, utf8Encode content⟩

/-! ## Configuration (`validateConfig`, `getConfiguration`)

A parsed JSON value is either a string, an array, or anything else; a parsed
configuration file is the pair of its (optional) `exclude` and `include` keys.
The JavaScript spread `{...defaultConfig, ...parsedConfig}` keeps a default
exactly when the parsed object lacks the key. -/

/-- JSON value shape, as far as `validateConfig` inspects it:
`Array.isArray` and `typeof v === 'string'` only distinguish strings, arrays
and everything else. -/
inductive JVal where
  | str : String → JVal
  | arr : List JVal → JVal
  | other : JVal

/-- Test embedding `typeof v === 'string'`. -/
def JVal.isStr : JVal → Bool
  | .str _ => true
  | _ => false

/-- Test for a JSON array whose elements are all strings. -/
def isStringArr : JVal → Bool
  | .arr vs => vs.all JVal.isStr
  | _ => false

/-- Configuration object after the spread merge: the values found under the
`exclude` and `include` keys (still untrusted JSON values). -/
structure MergedConfig where
  excludePats : JVal
  includePats : JVal

/-- Configuration file contents after `JSON.parse`: which of the two keys are
present, and the value of each present key. -/
structure ParsedConfig where
  excludeKey : Option JVal
  includeKey : Option JVal

/-- Embedding of `defaultConfig` in `getConfiguration`. -/
def defaultConfig : MergedConfig :=
  ⟨.arr [.str "node_modules/**", .str ".git/**"],
   .arr [.str "**/*.\x7bjs,ts,py,java,c,cpp,h,hpp,css,html\x7d"]⟩

/-- Embedding of `validateConfig`: first require both values to be arrays,
then require every element of both arrays to be a string; each failure throws
with the corresponding message. -/
def validateConfig (c : MergedConfig) : Except String Unit :=
  match c.excludePats, c.includePats with
  | .arr es, .arr is =>
    if es.any (fun v => !v.isStr) || is.any (fun v => !v.isStr) then
      .error "Configuration error: All patterns must be strings"
    else
      .ok ()
  | _, _ =>
    .error "Configuration error: \"exclude\" and \"include\" must be arrays"

/-- Embedding of the spread `{...defaultConfig, ...parsedConfig}`: a parsed
key overrides the default exactly when present. -/
def mergeConfig (p : ParsedConfig) : MergedConfig :=
  ⟨p.excludeKey.getD defaultConfig.excludePats,
   p.includeKey.getD defaultConfig.includePats⟩

/-- Embedding of `getConfiguration`: with no configuration file, return the
defaults; otherwise parse (a parse failure is re-wrapped, as is any error
thrown inside the surrounding `try`, with the `Error reading or parsing`
prefix), merge over the defaults, validate the merged result and return it. -/
def getConfiguration (configExists : Bool)
    (parseResult : Except String ParsedConfig) : Except String MergedConfig :=
  if configExists then
    match parseResult with
    | .error m =>
      .error ("Error reading or parsing configuration file: " ++ m)
    | .ok p =>
      match validateConfig (mergeConfig p) with
      | .error m =>
        .error ("Error reading or parsing configuration file: " ++ m)
      | .ok _ => .ok (mergeConfig p)
  else
    .ok defaultConfig

/-! ## File discovery (`getAllFiles`)

The source makes a single call `glob(config.include.join('|'), {cwd, ignore:
config.exclude, nodir: true}, cb)`.  The glob engine is external: it is
modelled, from the spec's interface description, as a filter of the
(deterministically ordered, duplicate-free) list of regular files under the
root by one pattern string, minus the ignore patterns.  The join with `'|'`
is repository code and is embedded literally. -/

/-- Embedding of `config.include.join('|')` (JavaScript `Array.join`). -/
def joinPipe : List String → String
  | [] => ""
  | x :: xs => xs.foldl (fun acc s => acc ++ "|" ++ s) x

/-- Modelled from the spec: the external glob engine, called with one pattern
string and an ignore list over the ordered duplicate-free list `allEntries` of
regular files under the root (`nodir: true`), keeps the entries matching the
pattern and not matching any ignore pattern, in order. -/
def globEngine (isMatch : String → String → Bool) (allEntries : List String)
    (pat : String) (ignore : List String) : List String :=
  allEntries.filter
    (fun f => isMatch f pat && !(ignore.any (fun e => isMatch f e)))

/-- Embedding of the success path of `getAllFiles`: one glob call on the
`'|'`-join of the include patterns, with the exclude patterns as `ignore`;
the resulting list (possibly empty) resolves the promise. -/
def getAllFiles (isMatch : String → String → Bool) (allEntries : List String)
    (includeList excludeList : List String) : Except String (List String) :=
  .ok (globEngine isMatch allEntries (joinPipe includeList) excludeList)

/-- Discovery as the spec words it: the entries matching at least one include
pattern and no exclude pattern, in order.  Stated from the spec for comparison
with `getAllFiles`. -/
def discoverSpec (isMatch : String → String → Bool) (allEntries : List String)
    (includeList excludeList : List String) : List String :=
  allEntries.filter
    (fun f => includeList.any (fun p => isMatch f p)
      && !(excludeList.any (fun e => isMatch f e)))

/-! ## Top-level error handling (`main` and `main().catch`)

`main` wraps the whole pipeline in `try { ... } catch (error) { print message;
if verbose print stack } finally { rl.close() }`.  Every error thrown by the
pipeline stages is caught by that `catch`, so the promise returned by `main()`
resolves normally and the `.catch(...)` handler containing `process.exit(1)`
never runs: the process then exits with the default code 0.  The observable
outcome is embedded as a record. -/

/-- Observable outcome of a run: whether an error message was printed, whether
stack detail was printed, whether `rl.close()` ran, and the process exit
code. -/
structure RunOutcome where
  errorPrinted : Bool
  stackPrinted : Bool
  rlClosed : Bool
  exitCode : Nat
deriving DecidableEq

/-- Embedding of `main` composed with `main().catch`: `body` is the result of
the pipeline inside the `try`.  On success nothing is printed and the process
exits 0.  On failure the `catch` inside `main` prints the message (stack only
under `--verbose`), the `finally` closes `rl`, `main()` resolves normally, the
outer `.catch` does not fire, and the process exits 0. -/
def mainOutcome (verbose : Bool) (body : Except String Unit) : RunOutcome :=
  match body with
  | .ok _ => ⟨false, false, true, 0⟩
  | .error _ => ⟨true, verbose, true, 0⟩

/-- Embedding of the `main().catch` handler alone, for an error that escapes
`main` itself: print (stack under `--verbose`) and `process.exit(1)`. -/
def unhandledOutcome (verbose : Bool) : RunOutcome :=
  ⟨true, verbose, false, 1⟩


theorem selectLoop_stop (m : String → String → Bool) (files : List String)
    (index : Nat) (sel lines : List String) (h : files.length ≤ index) :
    selectLoop m files index sel lines = some sel := by
  unfold selectLoop
  rw [if_pos h]

theorem selectLoop_y (m : String → String → Bool) (files : List String)
    (index : Nat) (sel : List String) (ans : String) (rest : List String)
    (h : index < files.length) (ha : toLowerStr ans = "y") :
    selectLoop m files index sel (ans :: rest) =
      selectLoop m files (index + 1) (sel ++ [files.getD index ""]) rest := by
  conv_lhs => unfold selectLoop
  rw [if_neg (Nat.not_le.mpr h)]
  simp only [ha]
  rw [if_pos trivial]

theorem selectLoop_n (m : String → String → Bool) (files : List String)
    (index : Nat) (sel : List String) (ans : String) (rest : List String)
    (h : index < files.length) (ha : toLowerStr ans = "n") :
    selectLoop m files index sel (ans :: rest) =
      selectLoop m files (index + 1) sel rest := by
  conv_lhs => unfold selectLoop
  rw [if_neg (Nat.not_le.mpr h)]
  simp only [ha]
  rw [if_neg (by decide)]
  rw [if_pos trivial]

theorem selectLoop_p (m : String → String → Bool) (files : List String)
    (index : Nat) (sel : List String) (ans pat : String) (rest : List String)
    (h : index < files.length) (ha : toLowerStr ans = "p") :
    selectLoop m files index sel (ans :: pat :: rest) =
      selectLoop m files (index + (micromatch m (files.drop index) pat).length)
        (sel ++ micromatch m (files.drop index) pat) rest := by
  conv_lhs => unfold selectLoop
  rw [if_neg (Nat.not_le.mpr h)]
  simp only [ha]
  rw [if_neg (by decide), if_neg (by decide)]
  rw [if_pos trivial]

theorem selectLoop_q (m : String → String → Bool) (files : List String)
    (index : Nat) (sel : List String) (ans : String) (rest : List String)
    (h : index < files.length) (ha : toLowerStr ans = "q") :
    selectLoop m files index sel (ans :: rest) = some sel := by
  conv_lhs => unfold selectLoop
  rw [if_neg (Nat.not_le.mpr h)]
  simp only [ha]
  rw [if_neg (by decide), if_neg (by decide), if_neg (by decide)]
  rw [if_pos trivial]

theorem selectLoop_other (m : String → String → Bool) (files : List String)
    (index : Nat) (sel : List String) (ans : String) (rest : List String)
    (h : index < files.length) (hy : toLowerStr ans ≠ "y")
    (hn : toLowerStr ans ≠ "n") (hp : toLowerStr ans ≠ "p")
    (hq : toLowerStr ans ≠ "q") :
    selectLoop m files index sel (ans :: rest) =
      selectLoop m files index sel rest := by
  conv_lhs => unfold selectLoop
  rw [if_neg (Nat.not_le.mpr h)]
  simp only [if_neg hy, if_neg hn, if_neg hp, if_neg hq]


theorem selectLoop_nil (m : String → String → Bool) (files : List String)
    (index : Nat) (sel : List String) (h : index < files.length) :
    selectLoop m files index sel [] = none := by
  conv_lhs => unfold selectLoop
  rw [if_neg (Nat.not_le.mpr h)]

theorem selectLoop_yn (m : String → String → Bool) (files : List String) :
    ∀ (answers : List String) (i : Nat) (sel : List String),
      i + answers.length = files.length →
      (∀ a ∈ answers, a = "y" ∨ a = "n") →
      selectLoop m files i sel answers =
        some (sel ++ (((files.drop i).zip answers).filter
          (fun fa => fa.2 == "y")).map Prod.fst) := by
  intro answers
  induction answers with
  | nil =>
    intro i sel hlen _
    rw [selectLoop_stop m files i sel [] (by simpa using hlen.ge)]
    simp
  | cons a rest ih =>
    intro i sel hlen hmem
    have hi : i < files.length := by simp at hlen; omega
    have hdrop : files.drop i = files[i] :: files.drop (i + 1) :=
      List.drop_eq_getElem_cons hi
    have hrest : ∀ b ∈ rest, b = "y" ∨ b = "n" :=
      fun b hb => hmem b (List.mem_cons_of_mem _ hb)
    have hlen' : i + 1 + rest.length = files.length := by simp at hlen; omega
    rcases hmem a (List.mem_cons_self _ _) with hy | hn
    · subst hy
      rw [selectLoop_y m files i sel "y" rest hi (by decide)]
      rw [ih (i + 1) _ hlen' hrest]
      rw [List.getD_eq_getElem _ _ hi]
      conv_rhs => rw [hdrop, List.zip_cons_cons, List.filter_cons]
      simp [List.append_assoc]
    · subst hn
      rw [selectLoop_n m files i sel "n" rest hi (by decide)]
      rw [ih (i + 1) _ hlen' hrest]
      conv_rhs => rw [hdrop, List.zip_cons_cons, List.filter_cons]
      simp

theorem selectLoop_noP_sublist (m : String → String → Bool)
    (files : List String) :
    ∀ (lines : List String) (i : Nat) (sel out : List String),
      (∀ l ∈ lines, toLowerStr l ≠ "p") →
      List.Sublist sel (files.take i) →
      selectLoop m files i sel lines = some out →
      List.Sublist out files := by
  intro lines
  induction lines with
  | nil =>
    intro i sel out _ hsub hrun
    by_cases h : files.length ≤ i
    · rw [selectLoop_stop m files i sel [] h] at hrun
      cases hrun
      exact hsub.trans (List.take_sublist _ _)
    · rw [selectLoop_nil m files i sel (Nat.not_le.mp h)] at hrun
      cases hrun
  | cons a rest ih =>
    intro i sel out hnp hsub hrun
    by_cases h : files.length ≤ i
    · rw [selectLoop_stop m files i sel _ h] at hrun
      cases hrun
      exact hsub.trans (List.take_sublist _ _)
    · have hi : i < files.length := Nat.not_le.mp h
      have hrest : ∀ l ∈ rest, toLowerStr l ≠ "p" :=
        fun l hl => hnp l (List.mem_cons_of_mem _ hl)
      have htake : files.take (i + 1) = files.take i ++ [files[i]] := by
        rw [List.take_succ, List.getElem?_eq_getElem hi]
        rfl
      by_cases hy : toLowerStr a = "y"
      · rw [selectLoop_y m files i sel a rest hi hy] at hrun
        refine ih (i + 1) _ out hrest ?_ hrun
        rw [List.getD_eq_getElem _ _ hi, htake]
        exact hsub.append (List.Sublist.refl _)
      · by_cases hn : toLowerStr a = "n"
        · rw [selectLoop_n m files i sel a rest hi hn] at hrun
          exact ih (i + 1) sel out hrest
            (hsub.trans (List.take_sublist_take_left _ (Nat.le_succ i))) hrun
        · by_cases hq : toLowerStr a = "q"
          · rw [selectLoop_q m files i sel a rest hi hq] at hrun
            cases hrun
            exact hsub.trans (List.take_sublist _ _)
          · have hp : toLowerStr a ≠ "p" := hnp a (List.mem_cons_self _ _)
            rw [selectLoop_other m files i sel a rest hi hy hn hp hq] at hrun
            exact ih i sel out hrest hsub hrun


/-- C1: at a cursor `i` inside the candidate list, answering `p` and entering
pattern `pat` makes the selection loop append exactly
`micromatch(files.slice(i), pat)` — an order-preserving sub-list of the
undecided slice — to the selection, and continue with the cursor advanced by
exactly the number of matched files. -/
theorem C1_pattern_batch (m : String → String → Bool) (files : List String)
    (i : Nat) (sel : List String) (pat : String) (rest : List String)
    (h : i < files.length) :
    selectLoop m files i sel ("p" :: pat :: rest) =
      selectLoop m files (i + (micromatch m (files.drop i) pat).length)
        (sel ++ micromatch m (files.drop i) pat) rest
    ∧ List.Sublist (micromatch m (files.drop i) pat) (files.drop i) :=
  ⟨selectLoop_p m files i sel "p" pat rest h (by decide),
   List.filter_sublist _⟩

/-- Witness for C1 at the concrete run: candidates `["a", "b"]`, pattern `"b"`
entered at cursor 0. -/
theorem C1_pattern_batch_witness :
    selectLoop litMatch ["a", "b"] 0 [] ["p", "b", "y"] =
      selectLoop litMatch ["a", "b"]
        (0 + (micromatch litMatch (["a", "b"].drop 0) "b").length)
        ([] ++ micromatch litMatch (["a", "b"].drop 0) "b") ["y"]
    ∧ List.Sublist (micromatch litMatch (["a", "b"].drop 0) "b")
        (["a", "b"].drop 0) :=
  C1_pattern_batch litMatch ["a", "b"] 0 [] "b" ["y"] (by decide)

/-- C2 fails on the code as stated: with duplicate-free candidates
`["a", "b"]`, entering pattern `"b"` at cursor 0 matches only `"b"`, appends it,
and advances the cursor by one — to `"b"` itself, which is still undecided;
answering `y` then adds `"b"` a second time, so the selection `["b", "b"]` is
not a duplicate-free subsequence. -/
theorem C2_counterexample :
    (["a", "b"] : List String).Nodup
    ∧ selectFiles litMatch ["a", "b"] ["p", "b", "y"] = some ["b", "b"]
    ∧ ¬ (["b", "b"] : List String).Nodup :=
  ⟨by decide, by decide, by decide⟩

/-- C2 (amended): for duplicate-free candidates and any input sequence that
uses no pattern-batch command, the selection produced by the loop is a
subsequence of the candidate list with no duplicates; a pattern-batch only
advances the cursor by the count of matched files, which need not move it past
every matched file, so a matched file can remain undecided and be added
again. -/
theorem C2_no_pattern_nodup_subsequence (m : String → String → Bool)
    (files lines out : List String) (hnodup : files.Nodup)
    (hnp : ∀ l ∈ lines, toLowerStr l ≠ "p")
    (hrun : selectFiles m files lines = some out) :
    List.Sublist out files ∧ out.Nodup := by
  have hsub := selectLoop_noP_sublist m files lines 0 [] out hnp
    (by simp) hrun
  exact ⟨hsub, List.Nodup.sublist hsub hnodup⟩

/-- Witness for the amended C2: candidates `["a", "b"]`, answers `y` then `n`. -/
theorem C2_no_pattern_witness :
    List.Sublist ["a"] ["a", "b"] ∧ (["a"] : List String).Nodup :=
  C2_no_pattern_nodup_subsequence litMatch ["a", "b"] ["y", "n"] ["a"]
    (by decide) (by decide) (by decide)

/-- C5: for a candidate list of length `N` and `N` answers each `y` or `n`,
the loop returns exactly the subsequence of candidates answered `y`, in
original candidate order. -/
theorem C5_yn_subsequence (m : String → String → Bool)
    (files answers : List String) (hlen : answers.length = files.length)
    (hmem : ∀ a ∈ answers, a = "y" ∨ a = "n") :
    selectFiles m files answers =
      some (((files.zip answers).filter
        (fun fa => fa.2 == "y")).map Prod.fst) := by
  unfold selectFiles
  rw [selectLoop_yn m files answers 0 [] (by omega) hmem]
  simp

/-- Witness for C5: candidates `["a", "b", "c"]` with answers `y`, `n`, `y`
select exactly `["a", "c"]`. -/
theorem C5_yn_subsequence_witness :
    selectFiles litMatch ["a", "b", "c"] ["y", "n", "y"] = some ["a", "c"] :=
  (C5_yn_subsequence litMatch ["a", "b", "c"] ["y", "n", "y"] (by decide)
    (by decide)).trans (by decide)

/-- C6 fails as stated in reachable states: on candidates `["a", "b"]`, the
pattern-batch on pattern `"b"` selects `"b"` and advances the cursor to 1 —
onto `"b"` itself — so quitting there returns `["b"]`, which contains the
candidate at the cursor position, not only files from positions strictly
before it. -/
theorem C6_counterexample :
    selectLoop litMatch ["a", "b"] 1 ["b"] ["q"] = some ["b"]
    ∧ selectFiles litMatch ["a", "b"] ["p", "b", "q"] = some ["b"]
    ∧ ¬ (∀ f ∈ ["b"], f ∈ (["a", "b"].take 1)) :=
  ⟨by decide, by decide, by decide⟩

/-- C6 (amended): answering `q` at a cursor `i` inside the candidate list
terminates the loop at once, returning exactly the selection accumulated so
far and consuming none of the remaining input; that selection contains only
files from positions strictly before `i` whenever it lies in the decided
prefix — as in every run without pattern-batch — but a preceding
pattern-batch can already have selected the candidate at position `i` itself,
which `q` then leaves in the returned selection. -/
theorem C6_quit_step (m : String → String → Bool) (files : List String)
    (i : Nat) (sel rest : List String) (h : i < files.length) :
    selectLoop m files i sel ("q" :: rest) = some sel
    ∧ (List.Sublist sel (files.take i) → ∀ f ∈ sel, f ∈ files.take i) :=
  ⟨selectLoop_q m files i sel "q" rest h (by decide),
   fun hsel _ hf => hsel.subset hf⟩

/-- Witness for the amended C6: quitting at cursor 1 of `["a", "b"]` with
`"a"` already selected returns `["a"]` and ignores the rest of the input. -/
theorem C6_quit_step_witness :
    selectLoop litMatch ["a", "b"] 1 ["a"] ["q", "y"] = some ["a"]
    ∧ (List.Sublist ["a"] (["a", "b"].take 1) →
        ∀ f ∈ ["a"], f ∈ ["a", "b"].take 1) :=
  C6_quit_step litMatch ["a", "b"] 1 ["a"] ["y"] (by decide)


/-- C3: evaluation of the top-level error handling at a fatal configuration
error (`"exclude": "notAnArray"`, verbose off): the error message is printed,
no stack detail is shown, `rl.close()` runs — but the process exit code is 0,
not non-zero, because `main`'s own `catch` handles the error and the
`.catch` handler holding `process.exit(1)` (modelled by `unhandledOutcome`)
never fires for pipeline failures. -/
theorem C3_handled_error_exits_zero :
    mainOutcome false
      ((getConfiguration true (.ok ⟨some (.str "notAnArray"), none⟩)).map
        (fun _ => ())) = ⟨true, false, true, 0⟩
    ∧ (unhandledOutcome false).exitCode = 1 :=
  ⟨rfl, rfl⟩

/-- C4: discovery diverges from the claimed contract when the configuration
holds more than one include pattern: `getAllFiles` hands the glob engine the
single string `include.join('|')`, and since a bare `|` is not a glob
operator, the literal patterns `a.js` and `b.py` joined as `"a.js|b.py"` match
neither file, while the contract (at least one include pattern, no exclude
pattern) selects both. -/
theorem C4_join_pipe_divergence :
    joinPipe ["a.js", "b.py"] = "a.js|b.py"
    ∧ getAllFiles litMatch ["a.js", "b.py"] ["a.js", "b.py"] [] = .ok []
    ∧ discoverSpec litMatch ["a.js", "b.py"] ["a.js", "b.py"] []
        = ["a.js", "b.py"] :=
  ⟨rfl, rfl, rfl⟩

theorem validateConfig_ok (c : MergedConfig)
    (h1 : isStringArr c.excludePats = true)
    (h2 : isStringArr c.includePats = true) :
    validateConfig c = .ok () := by
  obtain ⟨e, i⟩ := c
  cases e <;> cases i <;> simp [isStringArr] at h1 h2
  simp only [validateConfig]
  rw [if_neg]
  simp only [Bool.or_eq_true, List.any_eq_true, not_or]
  constructor <;> rintro ⟨v, hv, hnv⟩ <;> simp_all

/-- C7: when every key present in the parsed configuration file is an array of
strings, `getConfiguration` returns exactly the defaults shallow-merged with
the parsed object — each parsed key overriding the default exactly when
present — and a present key that is not a string array (such as
`"exclude": "notAnArray"`) makes the run fail with a configuration error
before discovery. -/
theorem C7_config_merge (p : ParsedConfig)
    (hex : ∀ v, p.excludeKey = some v → isStringArr v = true)
    (hin : ∀ v, p.includeKey = some v → isStringArr v = true) :
    getConfiguration true (.ok p) = .ok (mergeConfig p)
    ∧ (∀ v, p.excludeKey = some v → (mergeConfig p).excludePats = v)
    ∧ (p.excludeKey = none →
        (mergeConfig p).excludePats = defaultConfig.excludePats)
    ∧ (∀ v, p.includeKey = some v → (mergeConfig p).includePats = v)
    ∧ (p.includeKey = none →
        (mergeConfig p).includePats = defaultConfig.includePats)
    ∧ getConfiguration true (.ok ⟨some (.str "notAnArray"), none⟩)
        = .error ("Error reading or parsing configuration file: "
            ++ "Configuration error: \"exclude\" and \"include\" must be arrays") := by
  have hex' : isStringArr (mergeConfig p).excludePats = true := by
    cases heo : p.excludeKey with
    | some v => simpa [mergeConfig, heo] using hex v heo
    | none => simp [mergeConfig, heo]; rfl
  have hin' : isStringArr (mergeConfig p).includePats = true := by
    cases hio : p.includeKey with
    | some v => simpa [mergeConfig, hio] using hin v hio
    | none => simp [mergeConfig, hio]; rfl
  refine ⟨?_, ?_, ?_, ?_, ?_, rfl⟩
  · simp [getConfiguration, validateConfig_ok _ hex' hin']
  · intro v hv; simp [mergeConfig, hv]
  · intro hv; simp [mergeConfig, hv]
  · intro v hv; simp [mergeConfig, hv]
  · intro hv; simp [mergeConfig, hv]

/-- Witness for C7 at a parsed file overriding only `exclude` with
`["dist/**"]`. -/
theorem C7_config_merge_witness :
    getConfiguration true
        (.ok ⟨some (.arr [.str "dist/**"]), none⟩)
      = .ok (mergeConfig ⟨some (.arr [.str "dist/**"]), none⟩)
    ∧ (∀ v, (some (JVal.arr [.str "dist/**"]) = some v) →
        (mergeConfig ⟨some (.arr [.str "dist/**"]), none⟩).excludePats = v)
    ∧ ((some (JVal.arr [.str "dist/**"]) = (none : Option JVal)) →
        (mergeConfig ⟨some (.arr [.str "dist/**"]), none⟩).excludePats
          = defaultConfig.excludePats)
    ∧ (∀ v, ((none : Option JVal) = some v) →
        (mergeConfig ⟨some (.arr [.str "dist/**"]), none⟩).includePats = v)
    ∧ (((none : Option JVal) = (none : Option JVal)) →
        (mergeConfig ⟨some (.arr [.str "dist/**"]), none⟩).includePats
          = defaultConfig.includePats)
    ∧ getConfiguration true (.ok ⟨some (.str "notAnArray"), none⟩)
        = .error ("Error reading or parsing configuration file: "
            ++ "Configuration error: \"exclude\" and \"include\" must be arrays") :=
  C7_config_merge ⟨some (.arr [.str "dist/**"]), none⟩
    (by intro v hv; cases hv; rfl) (by intro v hv; cases hv)

theorem collectCode_foldl (readFile : String → String) :
    ∀ (files : List String) (init : String),
      files.foldl (fun out f => out ++ fileSection readFile f) init
        = init ++ sectionsConcat readFile files := by
  intro files
  induction files with
  | nil => intro init; simp [sectionsConcat]
  | cons f fs ih =>
    intro init
    simp only [List.foldl_cons, sectionsConcat, ih, String.append_assoc]

theorem getFileExtension_eq_staticTag (file : String)
    (hf : strSlice1 (extname file) ∉ objectProtoProps.map Prod.fst) :
    getFileExtension file = staticTag file := by
  unfold getFileExtension staticTag
  cases hfind : languageMap.find? (fun kv => kv.1 == strSlice1 (extname file)) with
  | some kv => simp [hfind]
  | none =>
    cases hfind2 : objectProtoProps.find?
        (fun kv => kv.1 == strSlice1 (extname file)) with
    | some kv =>
      exfalso
      refine hf ?_
      have hkey := List.find?_some hfind2
      have hmem : kv ∈ objectProtoProps := List.mem_of_find?_eq_some hfind2
      have hkey' : kv.1 = strSlice1 (extname file) := eq_of_beq hkey
      exact hkey' ▸ List.mem_map_of_mem Prod.fst hmem
    | none => simp [hfind, hfind2]

/-- C8 fails as stated: for the selected file `x.toString` the extension is
not an own key of the static mapping, yet the fence tag is not empty — the
JavaScript lookup reaches the inherited `Object.prototype.toString`, whose
string coercion lands in the fence line — so the document is not the one the
static-mapping contract prescribes. -/
theorem C8_counterexample :
    collectCode (fun _ => "c") ["x.toString"]
        = "# CodeCopier Output\n\n## File: x.toString\n\n```function toString() \x7b [native code] \x7d\nc\n```\n\n"
    ∧ "toString" ∉ languageMap.map Prod.fst
    ∧ collectCode (fun _ => "c") ["x.toString"]
        ≠ "# CodeCopier Output\n\n## File: x.toString\n\n```\nc\n```\n\n" :=
  ⟨by decide, by decide, by decide⟩

/-- C8 (amended): for a non-empty selection in which no selected file's
extension names an `Object.prototype` property, the assembled document is the
fixed title line followed by one section per selected file in selection order
— a level-2 header with the relative path, a fenced block tagged through the
static extension mapping holding the raw file text, and a blank line — and at
the single file `a.js` with content `console.log(1)` it equals the exact
expected text; a selected file whose extension names an `Object.prototype`
property instead gets the coerced inherited value as its tag. -/
theorem C8_assembler (readFile : String → String) (files : List String)
    (_hne : files ≠ [])
    (hp : ∀ f ∈ files, strSlice1 (extname f) ∉ objectProtoProps.map Prod.fst) :
    collectCode readFile files
        = "# CodeCopier Output\n\n" ++ sectionsConcat readFile files
    ∧ (∀ f ∈ files, getFileExtension f = staticTag f)
    ∧ collectCode (fun _ => "console.log(1)") ["a.js"]
        = "# CodeCopier Output\n\n## File: a.js\n\n```javascript\nconsole.log(1)\n```\n\n" :=
  ⟨collectCode_foldl readFile files _,
   fun f hf => getFileExtension_eq_staticTag f (hp f hf), by decide⟩

/-- Witness for C8 at the selection `["a.js"]` with content
`console.log(1)`. -/
theorem C8_assembler_witness :
    collectCode (fun _ => "console.log(1)") ["a.js"]
        = "# CodeCopier Output\n\n"
            ++ sectionsConcat (fun _ => "console.log(1)") ["a.js"]
    ∧ (∀ f ∈ ["a.js"], getFileExtension f = staticTag f)
    ∧ collectCode (fun _ => "console.log(1)") ["a.js"]
        = "# CodeCopier Output\n\n## File: a.js\n\n```javascript\nconsole.log(1)\n```\n\n" :=
  C8_assembler (fun _ => "console.log(1)") ["a.js"] (by decide) (by decide)

/-- C9: with the compress flag unset the document itself (UTF-8 encoded) is
written to the requested output path; with the flag set the gzip of the
document is written to the path with `.gz` appended, and decompressing that
payload reproduces the document exactly. -/
theorem C9_writer {α : Type} (utf8Encode gzip : String → α)
    (gunzip : α → String) (content outputPath : String)
    (hrt : ∀ s, gunzip (gzip s) = s) :
    writeOutput utf8Encode gzip content outputPath false
        = ⟨outputPath, utf8Encode content⟩
    ∧ (writeOutput utf8Encode gzip content outputPath true).path
        = outputPath ++ ".gz"
    ∧ gunzip (writeOutput utf8Encode gzip content outputPath true).data
        = content :=
  ⟨rfl, rfl, hrt content⟩

/-- Witness for C9 with the identity codec on `String`. -/
theorem C9_writer_witness :
    @writeOutput String id id "doc" "out.md" false = ⟨"out.md", id "doc"⟩
    ∧ (@writeOutput String id id "doc" "out.md" true).path = "out.md" ++ ".gz"
    ∧ id (@writeOutput String id id "doc" "out.md" true).data = "doc" :=
  C9_writer id id id "doc" "out.md" (fun _ => rfl)

/-- C10 fails as stated: the extension of `x.toString` is mixed-case (it
contains an uppercase `S`) and is not an own key of the static mapping, yet
`getFileExtension` does not return the empty string — the JavaScript property
access reaches the inherited, truthy `Object.prototype.toString`, which
`|| ''` keeps. -/
theorem C10_counterexample :
    ((strSlice1 (extname "x.toString")).data.any Char.isUpper) = true
    ∧ "toString" ∉ languageMap.map Prod.fst
    ∧ getFileExtension "x.toString" ≠ ""
    ∧ getFileExtension "x.toString"
        = "function toString() \x7b [native code] \x7d" :=
  ⟨by decide, by decide, by decide, by decide⟩

/-- C10 (amended): the extension-to-language lookup is keyed on the last
dot-extension and is case-sensitive on the own keys: a path whose extension
(after the dot) contains an uppercase letter, and a path with no dot
extension at all, both map to the empty tag — an untagged fenced block, never
an error — except when the extension names an `Object.prototype` property
(such as `toString`), where the lookup returns the inherited truthy value
instead of the empty string. -/
theorem C10_extension_lookup (file : String)
    (h : ((strSlice1 (extname file)).data.any Char.isUpper) = true
      ∨ extname file = "")
    (hproto : strSlice1 (extname file) ∉ objectProtoProps.map Prod.fst) :
    getFileExtension file = "" := by
  rw [getFileExtension_eq_staticTag file hproto]
  unfold staticTag
  cases hfind : languageMap.find? (fun kv => kv.1 == strSlice1 (extname file)) with
  | none => rfl
  | some kv =>
    exfalso
    have hkey := List.find?_some hfind
    have hmem : kv ∈ languageMap := List.mem_of_find?_eq_some hfind
    have hkey' : kv.1 = strSlice1 (extname file) := by
      exact eq_of_beq hkey
    rcases h with hup | hemp
    · rw [← hkey'] at hup
      fin_cases hmem <;> exact absurd hup (by decide)
    · rw [hemp] at hkey'
      have hnil : kv.1 = "" := hkey'
      fin_cases hmem <;> exact absurd hnil (by decide)

/-- Witness for the amended C10 at the mixed-case `a.JS` and the
extensionless `Makefile`. -/
theorem C10_extension_lookup_witness :
    getFileExtension "a.JS" = "" ∧ getFileExtension "Makefile" = "" :=
  ⟨C10_extension_lookup "a.JS" (Or.inl (by decide)) (by decide),
   C10_extension_lookup "Makefile" (Or.inr (by decide)) (by decide)⟩

end CodeCopier
